import Mathlib

/-!
Verification development for the `pmt` package-manager front-end.

This file gives a shallow embedding of the core components named by the
specification — the dependency resolver (`src/dep_resolver.cpp`), the AUR
build pipeline (`App::run_aur_builds` in `src/app.cpp`), and the VCS upgrade
scan (`App::do_aur_upgrade` in `src/app.cpp`) — and proves properties
of this embedding.  External collaborators (the AUR RPC client, the alpm
database wrapper, the UI and process execution) are modelled as oracle
functions in environment records, matching the interfaces those components
expose to the core.
-/

set_option maxHeartbeats 1000000

namespace Pmt

/-- Package metadata record, the fields of `PackageInfo` (src/package.h) that
the resolver and the build pipeline read: name, version, pkgbase, the declared
runtime and build dependencies, and the provided capabilities. -/
structure PackageInfo where
  name : String
  version : String
  pkgbase : String
  depends : List String
  makedepends : List String
  provides : List String
deriving DecidableEq, Repr

/-- The default-constructed `PackageInfo` (everything empty). -/
def emptyPkg : PackageInfo := ⟨"", "", "", [], [], []⟩

/-- External collaborators of the resolver: `AurClient::info` (`none` models
the C++ return of a `PackageInfo` with an empty name), `AurClient::search_provides`,
`AlpmWrapper::is_dep_satisfied` and `AlpmWrapper::is_dep_in_repos`. -/
structure Env where
  aurInfo : String → Option PackageInfo
  searchProvides : String → List PackageInfo
  isDepSatisfied : String → Bool
  isDepInRepos : String → Bool

/-- Instrumentation record of calls the resolver issues to the AUR client,
used to state that a branch of the traversal fetches nothing. -/
inductive AurCall where
  | info (name : String)
  | batch (names : List String)
  | provSearch (name : String)
deriving DecidableEq, Repr

/-- The mutable fields of `DepResolver` (src/dep_resolver.h), plus a log list
modelling the `log_` callback invocations and a trace of AUR client calls. -/
structure ResolverState where
  visited : List String
  in_stack : List String
  build_order : List PackageInfo
  repo_deps : List String
  satisfied_deps : List String
  error : String
  aur_cache : List (String × PackageInfo)
  provides_map : List (String × String)
  log : List String
  trace : List AurCall
deriving DecidableEq, Repr

/-- The state of a freshly constructed `DepResolver`. -/
def initState : ResolverState := ⟨[], [], [], [], [], "", [], [], [], []⟩

/-- Set insertion on a list used as a `std::set<std::string>`. -/
def sinsert (x : String) (l : List String) : List String :=
  if l.contains x then l else x :: l

/-- Lookup in an association list used as a `std::map` keyed by strings. -/
def mapFind (k : String) (m : List (String × α)) : Option α :=
  match m.find? (fun e => e.1 == k) with
  | some e => some e.2
  | none => none

/-- Assignment in an association list used as a `std::map` keyed by strings;
the new binding shadows any old one. -/
def mapInsert (k : String) (v : α) (m : List (String × α)) : List (String × α) :=
  (k, v) :: m

/-- `DepResolver::strip_version`: cut the dependency string at the first
occurrence of `>`, `<` or `=` (`find_first_of("><=")`). -/
def strip_version (dep : String) : String :=
  String.mk (dep.toList.takeWhile (fun c => !(c == '>' || c == '<' || c == '=')))

/-- `AurClient::info_batch`, modelled from the single-package oracle: the AUR
RPC multi-info request returns the descriptors of the known names and silently
omits unknown ones. -/
def infoBatch (env : Env) (names : List String) : List PackageInfo :=
  names.filterMap env.aurInfo

/-- The inner loop of `DepResolver::find_provider`: a provider matches when one
of its declared `provides` entries, with its version suffix stripped, equals
the dependency name exactly. -/
def providerMatch (dep_name : String) (p : PackageInfo) : Bool :=
  p.provides.any (fun prov => strip_version prov == dep_name)

/-- `DepResolver::find_provider`: memoized search of the AUR for a package
providing a virtual dependency; a negative result is memoized as `""`. -/
def find_provider (env : Env) (dep_name : String) (s : ResolverState) :
    String × ResolverState :=
  match mapFind dep_name s.provides_map with
  | some v => (v, s)
  | none =>
    let s1 : ResolverState :=
      {s with log := s.log ++ ["Searching AUR for provider of " ++ dep_name ++ "..."],
              trace := s.trace ++ [AurCall.provSearch dep_name]}
    match (env.searchProvides dep_name).find? (providerMatch dep_name) with
    | some p =>
      (p.name,
       {s1 with log := s1.log ++ ["Found: " ++ p.name ++ " provides " ++ dep_name],
                provides_map := mapInsert dep_name p.name s1.provides_map,
                aur_cache := mapInsert p.name p s1.aur_cache})
    | none => ("", {s1 with provides_map := mapInsert dep_name "" s1.provides_map})

/-- The collection loop of `DepResolver::dfs` (first pass over the dependency
strings): the names to batch-fetch are those not visited, not in progress, not
satisfied locally, not repo-available and not already cached. -/
def unknownDeps (env : Env) (s : ResolverState) (deps : List String) : List String :=
  (deps.filter (fun dep =>
      !(s.visited.contains (strip_version dep)) &&
      !(s.in_stack.contains (strip_version dep)) &&
      !(env.isDepSatisfied dep) &&
      !(env.isDepInRepos dep) &&
      (mapFind (strip_version dep) s.aur_cache).isNone)).map strip_version

/-- Seeding of `aur_cache_` with the results of one batched info call, each
result stored under its own name. -/
def cacheBatch (ps : List PackageInfo) (m : List (String × PackageInfo)) :
    List (String × PackageInfo) :=
  ps.foldl (fun acc p => mapInsert p.name p acc) m

/-- The batch-fetch step of `DepResolver::dfs`: when there are unknown names,
issue one batched lookup and seed the cache with whatever is returned. -/
def seedBatch (env : Env) (s : ResolverState) (deps : List String) : ResolverState :=
  let unknown := unknownDeps env s deps
  if unknown.isEmpty then s
  else
    {s with log := s.log ++ ["Batch-fetching " ++ toString unknown.length ++ " AUR dependencies..."],
            trace := s.trace ++ [AurCall.batch unknown],
            aur_cache := cacheBatch (infoBatch env unknown) s.aur_cache}

/-- The guard of the recursion branch in the classification loop:
`aur_cache_.count(dep_name) && !aur_cache_[dep_name].name.empty()`. -/
def cacheHit (k : String) (m : List (String × PackageInfo)) : Bool :=
  match mapFind k m with
  | some p => !(p.name == "")
  | none => false

/-- Completion of one `dfs` frame: mark the name visited, pop it from the
in-progress set and append the descriptor to the build list (post-order). -/
def finishPkg (name : String) (pkg : PackageInfo) (s : ResolverState) : ResolverState :=
  {s with visited := sinsert name s.visited,
          in_stack := s.in_stack.erase name,
          build_order := s.build_order ++ [pkg],
          log := s.log ++ ["Resolved: " ++ name]}

mutual

/-- `DepResolver::dfs` (src/dep_resolver.cpp lines 45-134).  The `fuel`
argument bounds the recursion depth of the embedding; every run of the C++
function corresponds to a run with sufficiently large fuel, and exhausted fuel
reports failure. -/
def dfs (env : Env) : Nat → String → ResolverState → Bool × ResolverState
  | 0, _, s => (false, {s with error := "Resolver fuel exhausted"})
  | fuel + 1, name, s =>
    if s.visited.contains name then (true, s)
    else if s.in_stack.contains name then
      (false, {s with error := "Circular dependency detected: " ++ name})
    else
      let s1 : ResolverState :=
        {s with in_stack := sinsert name s.in_stack,
                log := s.log ++ ["Fetching AUR info for " ++ name ++ "..."]}
      match mapFind name s1.aur_cache with
      | some pkg => dfsBody env fuel name pkg s1
      | none =>
        let s2 : ResolverState := {s1 with trace := s1.trace ++ [AurCall.info name]}
        match env.aurInfo name with
        | none =>
          (false, {s2 with in_stack := s2.in_stack.erase name,
                           error := "Package not found in AUR: " ++ name})
        | some pkg =>
          if pkg.name == "" then
            (false, {s2 with in_stack := s2.in_stack.erase name,
                             error := "Package not found in AUR: " ++ name})
          else
            dfsBody env fuel name pkg {s2 with aur_cache := mapInsert name pkg s2.aur_cache}

/-- The part of `DepResolver::dfs` after the descriptor for `name` is in hand:
the already-installed shortcut, the batch fetch and the classification loop,
then the post-order completion. -/
def dfsBody (env : Env) : Nat → String → PackageInfo → ResolverState → Bool × ResolverState
  | 0, _, _, s => (false, {s with error := "Resolver fuel exhausted"})
  | fuel + 1, name, pkg, s =>
    if env.isDepSatisfied (pkg.name ++ "=" ++ pkg.version) then
      (true, {s with log := s.log ++ ["Skipping " ++ name ++ " (" ++ pkg.version ++ " already installed)"],
                     visited := sinsert name s.visited,
                     in_stack := s.in_stack.erase name})
    else
      let all_deps := pkg.depends ++ pkg.makedepends
      let r := processDeps env fuel name all_deps (seedBatch env s all_deps)
      if r.1 then (true, finishPkg name pkg r.2) else (false, r.2)

/-- The classification loop of `DepResolver::dfs` (src/dep_resolver.cpp lines
100-126): each dependency string is classified as satisfied, repo-available,
an AUR package to recurse into, or a virtual capability resolved through
`find_provider`; an unresolvable dependency aborts with an error naming the
dependency and its requirer. -/
def processDeps (env : Env) : Nat → String → List String → ResolverState → Bool × ResolverState
  | 0, _, _, s => (false, {s with error := "Resolver fuel exhausted"})
  | _ + 1, _, [], s => (true, s)
  | fuel + 1, name, dep :: rest, s =>
    if env.isDepSatisfied dep then
      processDeps env fuel name rest {s with satisfied_deps := s.satisfied_deps ++ [dep]}
    else if env.isDepInRepos dep then
      processDeps env fuel name rest {s with repo_deps := s.repo_deps ++ [dep]}
    else
      if cacheHit (strip_version dep) s.aur_cache then
        let r := dfs env fuel (strip_version dep) s
        if r.1 then processDeps env fuel name rest r.2 else (false, r.2)
      else
        let pr := find_provider env (strip_version dep) s
        if pr.1 == "" then
          (false, {pr.2 with error := "Dependency not found anywhere: " ++ dep ++ " (required by " ++ name ++ ")"})
        else
          let r := dfs env fuel pr.1 pr.2
          if r.1 then processDeps env fuel name rest r.2 else (false, r.2)

end

/-- The build-unit identifier used for deduplication: the pkgbase, defaulting
to the package name when pkgbase is empty. -/
def pkgBase (p : PackageInfo) : String :=
  if p.pkgbase == "" then p.name else p.pkgbase

/-- The deduplication loop of `DepResolver::resolve` (src/dep_resolver.cpp
lines 24-33): keep the first package of each build unit, and produce one log
message for each later package sharing an already-seen build unit. -/
def dedupLoop : List PackageInfo → List String → List PackageInfo × List String
  | [], _ => ([], [])
  | p :: rest, seen =>
    if seen.contains (pkgBase p) then
      let r := dedupLoop rest seen
      (r.1, ("Skipping " ++ p.name ++ " (split package, already building " ++ pkgBase p ++ ")") :: r.2)
    else
      let r := dedupLoop rest (pkgBase p :: seen)
      (p :: r.1, r.2)

/-- `DepResolution` (src/dep_resolver.h): result of one resolver invocation. -/
structure DepResolution where
  ok : Bool
  error : String
  aur_build_order : List PackageInfo
  repo_deps : List String
  satisfied_deps : List String
deriving DecidableEq, Repr

/-- The field-clearing prologue of `DepResolver::resolve`: every piece of
per-call state of the resolver object is reset before the traversal starts. -/
def clearState (s : ResolverState) : ResolverState :=
  {s with visited := [], in_stack := [], build_order := [], repo_deps := [],
          satisfied_deps := [], error := "", aur_cache := [], provides_map := [],
          log := [], trace := []}

/-- `DepResolver::resolve` (src/dep_resolver.cpp lines 9-42): clear all state,
run the DFS from the root, deduplicate the build list by build unit, and
package the outcome.  The second component is the resolver object's state
after the call returns. -/
def resolve (env : Env) (fuel : Nat) (s0 : ResolverState) (name : String) :
    DepResolution × ResolverState :=
  let s : ResolverState :=
    {clearState s0 with log := ["Resolving dependencies for " ++ name ++ "..."]}
  let r := dfs env fuel name s
  let dd := dedupLoop r.2.build_order []
  ({ ok := r.1, error := r.2.error, aur_build_order := dd.1,
     repo_deps := r.2.repo_deps, satisfied_deps := r.2.satisfied_deps },
   {r.2 with log := r.2.log ++ dd.2})

/-! The AUR build pipeline, `App::run_aur_builds` (src/app.cpp lines 1022-1224),
and the AUR branch of `App::do_install` (src/app.cpp lines 538-582).  The UI,
the filesystem and the external `pacman`/`makepkg` processes are modelled as
oracles; the observable behaviour is the ordered trace of pipeline stages. -/
/-- Oracles consumed by the build pipeline: `AurClient::fetch_pkgbuild` (empty
string models failure), the review dialog decision, the exit status of the
batch `pacman -S --asdeps` repo-dependency install, `AurClient::build_package`
(empty string models failure) and the exit status of the `pacman -U` install. -/
structure BuildEnv where
  fetchPkgbuild : String → String → String
  reviewAccept : String → Bool
  installRepoDepsOk : Bool
  buildPackage : String → String
  installOk : String → Bool

/-- Observable stages of the build pipeline, in the order they occur. -/
inductive BuildEv where
  | confirm
  | fetchPkgbuild (name : String)
  | review (name : String)
  | installRepoDeps (deps : List String) (asdeps : Bool)
  | build (idx : Nat) (name : String)
  | install (idx : Nat) (name : String)
  | reload
deriving DecidableEq, Repr

/-- The first loop of `App::run_aur_builds` (src/app.cpp lines 1030-1073):
fetch and review the PKGBUILD of every package in the build order; a fetch
failure or a rejected review aborts the whole pipeline. -/
def reviewPhase (benv : BuildEnv) : List PackageInfo → List BuildEv → Bool × List BuildEv
  | [], tr => (true, tr)
  | p :: rest, tr =>
    let tr1 := tr ++ [BuildEv.fetchPkgbuild p.name]
    if benv.fetchPkgbuild p.name p.pkgbase == "" then (false, tr1)
    else
      let tr2 := tr1 ++ [BuildEv.review p.name]
      if benv.reviewAccept p.name then reviewPhase benv rest tr2
      else (false, tr2)

/-- The build-and-install loop of `App::run_aur_builds` (src/app.cpp lines
1140-1198): for each package in order, build it, install it with overwrite
permitted, and reload the local database; any failure aborts the rest. -/
def buildPhase (benv : BuildEnv) : Nat → List PackageInfo → List BuildEv → Bool × List BuildEv
  | _, [], tr => (true, tr)
  | idx, p :: rest, tr =>
    let tr1 := tr ++ [BuildEv.build idx p.name]
    if benv.buildPackage p.name == "" then (false, tr1)
    else
      let tr2 := tr1 ++ [BuildEv.install idx p.name]
      if benv.installOk p.name then buildPhase benv (idx + 1) rest (tr2 ++ [BuildEv.reload])
      else (false, tr2)

/-- `App::run_aur_builds`: review every PKGBUILD, then install the repo
dependencies in one batch (only when the set is non-empty, with the
as-dependency flag), then run the per-package build-and-install loop. -/
def run_aur_builds (benv : BuildEnv) (build_order : List PackageInfo)
    (repo_deps : List String) : Bool × List BuildEv :=
  let rp := reviewPhase benv build_order []
  if rp.1 then
    if repo_deps.isEmpty then buildPhase benv 0 build_order rp.2
    else
      let tr := rp.2 ++ [BuildEv.installRepoDeps repo_deps true]
      if benv.installRepoDepsOk then buildPhase benv 0 build_order tr
      else (false, tr)
  else (false, rp.2)

/-- The AUR branch of `App::do_install` after a successful resolution: show
the confirmation dialog and, if the operator accepts, run the pipeline on the
resolved build order and repo dependencies. -/
def do_install_aur (benv : BuildEnv) (confirmOk : Bool) (res : DepResolution) :
    Bool × List BuildEv :=
  if !res.ok then (false, [])
  else if res.aur_build_order.isEmpty then (true, [])
  else if confirmOk then
    let r := run_aur_builds benv res.aur_build_order res.repo_deps
    (r.1, BuildEv.confirm :: r.2)
  else (false, [BuildEv.confirm])

/-! The VCS portion of the upgrade scan, `App::do_aur_upgrade` (src/app.cpp
lines 1305-1396) and `AurClient::is_vcs_package` (src/aur.cpp lines 359-367).
The `makepkg --nobuild` probe of `AurClient::check_vcs_version` is modelled as
an oracle returning the probed version string, empty on failure. -/
/-- `AurClient::is_vcs_package`: a package name carries a version-control
source marker when it ends in one of the six fixed suffixes. -/
def is_vcs_package (name : String) : Bool :=
  ["-git", "-svn", "-hg", "-bzr", "-fossil", "-cvs"].any
    (fun suf => List.isSuffixOf suf.toList name.toList)

/-- Oracles of the VCS probe loop: `AurClient::check_vcs_version` (empty
string models a failed probe) and `alpm_pkg_vercmp`. -/
structure VcsEnv where
  checkVcsVersion : String → String → String
  vercmp : String → String → Int

/-- The VCS candidate loop of `App::do_aur_upgrade` (src/app.cpp lines
1348-1390): each candidate is a pair of the locally installed package and its
AUR descriptor; probe the real buildable version, skip the candidate when the
probe fails, and append an upgrade carrying the probed version when it is
strictly newer than the local one. -/
def vcsScan (venv : VcsEnv) :
    List (PackageInfo × PackageInfo) → List (PackageInfo × PackageInfo) →
    List (PackageInfo × PackageInfo)
  | [], upgrades => upgrades
  | (loc, aur_pkg) :: rest, upgrades =>
    let real := venv.checkVcsVersion loc.name aur_pkg.pkgbase
    if real == "" then vcsScan venv rest upgrades
    else if venv.vercmp real loc.version > 0 then
      vcsScan venv rest (upgrades ++ [(loc, {aur_pkg with version := real})])
    else vcsScan venv rest upgrades

/-- The per-root merge loop of `App::do_aur_upgrade` (src/app.cpp lines
1449-1455): build lists of successive resolutions are merged, keeping the
first package of each build unit. -/
def mergeBuildOrders : List (List PackageInfo) → List String → List PackageInfo
  | [], _ => []
  | l :: ls, seen =>
    let dd := dedupLoop l seen
    dd.1 ++ mergeBuildOrders ls (seen ++ (dd.1.map pkgBase))

/-! Invariants of the traversal, under a well-behaved remote directory. -/
/-- Well-behavedness of the remote directory: a looked-up descriptor carries
the name it was looked up under, provider-search results are real directory
entries, and the empty name is not a package. -/
structure EnvWf (env : Env) : Prop where
  info_name : ∀ n p, env.aurInfo n = some p → p.name = n
  provides_sound : ∀ d p, p ∈ env.searchProvides d → env.aurInfo p.name = some p
  no_empty : env.aurInfo "" = none

/-- The ordering relation maintained along the build list: a package placed
later never carries the stripped name of an unsatisfied, non-repo dependency
of a package placed earlier. -/
def depOrdRel (env : Env) (u v : PackageInfo) : Prop :=
  ∀ d, d ∈ u.depends ++ u.makedepends → env.isDepSatisfied d = false →
    env.isDepInRepos d = false → v.name ≠ strip_version d

/-- Invariant of the resolver state during the traversal. -/
structure Inv (env : Env) (s : ResolverState) : Prop where
  cacheOk : ∀ k p, (k, p) ∈ s.aur_cache → env.aurInfo k = some p
  buildSound : ∀ p, p ∈ s.build_order → env.aurInfo p.name = some p
  namesVisited : ∀ p, p ∈ s.build_order → p.name ∈ s.visited
  stackCached : ∀ n, n ∈ s.in_stack → (mapFind n s.aur_cache).isSome = true
  depDone : ∀ p, p ∈ s.build_order → ∀ d, d ∈ p.depends ++ p.makedepends →
    env.isDepSatisfied d = false → env.isDepInRepos d = false →
    strip_version d ∈ s.visited ∨ env.aurInfo (strip_version d) = none
  goodOrd : s.build_order.Pairwise (depOrdRel env)
  selfOk : ∀ p, p ∈ s.build_order → ∀ d, d ∈ p.depends ++ p.makedepends →
    env.isDepSatisfied d = false → env.isDepInRepos d = false →
    p.name ≠ strip_version d

/-- Postcondition of a successful `dfs` call: the in-progress set is restored,
the visited set only grows, the build list is extended at its end, the
descriptor cache only grows, no name that was in progress at entry becomes
newly visited, and the invariant holds again. -/
structure DfsPost (env : Env) (s s' : ResolverState) : Prop where
  stack_eq : s'.in_stack = s.in_stack
  vis_mono : ∀ n, n ∈ s.visited → n ∈ s'.visited
  build_ext : ∃ t, s'.build_order = s.build_order ++ t
  cache_mono : ∀ k, (mapFind k s.aur_cache).isSome = true →
    (mapFind k s'.aur_cache).isSome = true
  stack_not_vis : ∀ n, n ∈ s.in_stack → n ∈ s'.visited → n ∈ s.visited
  inv : Inv env s'

/-- Postcondition of a successful `dfsBody` run for the frame of `name`: same
as `DfsPost` except that the frame pops its own name from the in-progress set
and marks it visited. -/
structure BodyPost (env : Env) (name : String) (s s' : ResolverState) : Prop where
  stack_eq : s'.in_stack = s.in_stack.erase name
  vis_mono : ∀ n, n ∈ s.visited → n ∈ s'.visited
  build_ext : ∃ t, s'.build_order = s.build_order ++ t
  cache_mono : ∀ k, (mapFind k s.aur_cache).isSome = true →
    (mapFind k s'.aur_cache).isSome = true
  stack_not_vis : ∀ n, n ≠ name → n ∈ s.in_stack → n ∈ s'.visited → n ∈ s.visited
  inv : Inv env s'
  key_vis : name ∈ s'.visited

/-- Per-dependency outcome of a successful classification loop: an
unsatisfied, non-repo dependency string ends up visited under its stripped
name, or its stripped name was a cache miss at entry to the loop. -/
def depResolved (env : Env) (s bs : ResolverState) (d : String) : Prop :=
  env.isDepSatisfied d = false → env.isDepInRepos d = false →
    strip_version d ∈ bs.visited ∨ mapFind (strip_version d) s.aur_cache = none

/-- Induction statement for `dfs` at a given fuel. -/
def DfsOk (fuel : Nat) : Prop :=
  ∀ env name s bs, EnvWf env → Inv env s →
    dfs env fuel name s = (true, bs) → DfsPost env s bs ∧ name ∈ bs.visited

/-- Induction statement for `dfsBody` at a given fuel. -/
def BodyOk (fuel : Nat) : Prop :=
  ∀ env name pkg s bs, EnvWf env → Inv env s →
    env.aurInfo name = some pkg → mapFind name s.aur_cache = some pkg →
    name ∉ s.visited → name ∈ s.in_stack →
    dfsBody env fuel name pkg s = (true, bs) → BodyPost env name s bs

/-- Induction statement for `processDeps` at a given fuel. -/
def ProcOk (fuel : Nat) : Prop :=
  ∀ env name deps s bs, EnvWf env → Inv env s →
    processDeps env fuel name deps s = (true, bs) →
    DfsPost env s bs ∧ ∀ d, d ∈ deps → depResolved env s bs d

/-- The resolver state right after the clearing prologue of `resolve`. -/
def startState (name : String) : ResolverState :=
  {initState with log := ["Resolving dependencies for " ++ name ++ "..."]}

/-! Concrete environments used to exercise the claims. -/
/-- Root package of the ordering scenario: depends on `u` and `w`. -/
def pkgR : PackageInfo := ⟨"R", "1", "", ["u", "w"], [], []⟩

/-- Package `u` of the ordering scenario: depends on bare `v`, which the local
installation satisfies. -/
def pkgU : PackageInfo := ⟨"u", "1", "", ["v"], [], []⟩

/-- Package `w` of the ordering scenario: depends on `v>=5`, which the local
installation does not satisfy. -/
def pkgW : PackageInfo := ⟨"w", "1", "", ["v>=5"], [], []⟩

/-- Package `v` of the ordering scenario. -/
def pkgV : PackageInfo := ⟨"v", "5", "", [], [], []⟩

/-- Environment of the ordering scenario: an installed old `v` satisfies the
bare dependency string `v` but not `v>=5`, so `u` skips `v` while `w` forces
`v` to be built. -/
def envOrd : Env where
  aurInfo := fun n =>
    if n = "R" then some pkgR
    else if n = "u" then some pkgU
    else if n = "w" then some pkgW
    else if n = "v" then some pkgV
    else none
  searchProvides := fun _ => []
  isDepSatisfied := fun d => d = "v"
  isDepInRepos := fun _ => false

/-- The ordering property exactly as the specification states it: whenever a
package of the build list declares a dependency and some package of the list
carries that dependency's stripped name, the provider's index strictly
precedes the dependent's index. -/
def claimC1 (l : List PackageInfo) : Prop :=
  ∀ i, i < l.length → ∀ j, j < l.length →
    ∀ d ∈ (l.getD i emptyPkg).depends ++ (l.getD i emptyPkg).makedepends,
      (l.getD j emptyPkg).name = strip_version d → j < i

/-! Claims C2 and C7: cycle detection and the visited/in-progress skip. -/
/-- Package `A` of the cycle scenario. -/
def pkgA : PackageInfo := ⟨"A", "1", "", ["B"], [], []⟩

/-- Package `B` of the cycle scenario. -/
def pkgB : PackageInfo := ⟨"B", "1", "", ["A"], [], []⟩

/-- Environment with the two-cycle `A` depends on `B` depends on `A`. -/
def envCyc : Env where
  aurInfo := fun n =>
    if n = "A" then some pkgA
    else if n = "B" then some pkgB
    else none
  searchProvides := fun _ => []
  isDepSatisfied := fun _ => false
  isDepInRepos := fun _ => false

/-- A state with `A` in progress and `B` already visited, exercising both
entry cases of `dfs`. -/
def cycState : ResolverState := {initState with in_stack := ["A"], visited := ["B"]}

/-- Package `p` of the second cycle scenario (cycle through makedepends). -/
def pkgP : PackageInfo := ⟨"p", "1", "", [], ["q"], []⟩

/-- Package `q` of the second cycle scenario. -/
def pkgQ : PackageInfo := ⟨"q", "1", "", [], ["p"], []⟩

/-- Environment with the build-dependency cycle `p`, `q`, `p`. -/
def envCyc2 : Env where
  aurInfo := fun n =>
    if n = "p" then some pkgP
    else if n = "q" then some pkgQ
    else none
  searchProvides := fun _ => []
  isDepSatisfied := fun _ => false
  isDepInRepos := fun _ => false

/-- A state with `q` visited and `p` in progress, for the C7 witness. -/
def skipState : ResolverState := {initState with in_stack := ["p"], visited := ["q"]}

/-- Package `z` of the shortcut scenario: its dependencies must never be
looked at. -/
def pkgZ : PackageInfo := ⟨"z", "2", "", ["zdep1"], ["zdep2"], []⟩

/-- Environment of the shortcut scenario: `z` is installed at exactly the
directory-reported version `2`. -/
def envShort : Env where
  aurInfo := fun n => if n = "z" then some pkgZ else none
  searchProvides := fun _ => []
  isDepSatisfied := fun d => d = "z=2"
  isDepInRepos := fun _ => false

/-! Claim C3: unresolvable dependencies fail the whole resolution with an
error naming the dependency and its requirer. -/
/-- Root of the missing-dependency scenario. -/
def pkgRoot3 : PackageInfo := ⟨"root", "1", "", ["mid"], [], []⟩

/-- Middle package of the missing-dependency scenario: requires `libzap>=2`,
which has no provider of any kind. -/
def pkgMid3 : PackageInfo := ⟨"mid", "1", "", ["libzap>=2"], [], []⟩

/-- Environment of the missing-dependency scenario: `libzap` is not
installed, not in any repo, not in the source directory, and nothing
provides it. -/
def envMissing : Env where
  aurInfo := fun n =>
    if n = "root" then some pkgRoot3
    else if n = "mid" then some pkgMid3
    else none
  searchProvides := fun _ => []
  isDepSatisfied := fun _ => false
  isDepInRepos := fun _ => false

/-- First split package of the dedup example, build unit `foo`. -/
def pkgFooBin : PackageInfo := ⟨"foo-bin", "1", "foo", [], [], []⟩

/-- Second split package of the dedup example, build unit `foo`. -/
def pkgFooDoc : PackageInfo := ⟨"foo-doc", "1", "foo", [], [], []⟩

/-- Environment of the partial-failure scenario: `a` resolves and is built,
`rd` is repo-available, and `b` is missing, failing the resolution after the
first two were accumulated. -/
def envFail : Env where
  aurInfo := fun n =>
    if n = "R" then some ⟨"R", "1", "", ["a", "rd", "b"], [], []⟩
    else if n = "a" then some ⟨"a", "1", "", [], [], []⟩
    else none
  searchProvides := fun _ => []
  isDepSatisfied := fun _ => false
  isDepInRepos := fun d => d = "rd"

/-! Claim C8: resolve calls are independent of any earlier state. -/
/-- Running a sequence of resolve calls on one resolver object, threading the
object state from call to call. -/
def resolveMany (env : Env) (fuel : Nat) (s0 : ResolverState) : List String → ResolverState
  | [] => s0
  | n :: ns => resolveMany env fuel (resolve env fuel s0 n).2 ns

/-! Claim C4: the order of the build-pipeline stages. -/
/-- Discriminator for the repo-dependency installation event. -/
def isRepoDepsEv : BuildEv → Bool
  | BuildEv.installRepoDeps _ _ => true
  | _ => false

/-- Discriminator for the per-package stages (fetch, review, build, install). -/
def isPerPkgEv : BuildEv → Bool
  | BuildEv.fetchPkgbuild _ => true
  | BuildEv.review _ => true
  | BuildEv.build _ _ => true
  | BuildEv.install _ _ => true
  | _ => false

/-- The stage order exactly as the claim states it: the repo-dependency batch
installation occurs before any per-package stage begins. -/
def claimC4 (tr : List BuildEv) : Prop :=
  ∀ i, i < tr.length → ∀ j, j < tr.length →
    isRepoDepsEv (tr.getD i BuildEv.reload) = true →
    isPerPkgEv (tr.getD j BuildEv.reload) = true → i < j

/-- A pipeline environment in which every stage succeeds. -/
def benvAll : BuildEnv where
  fetchPkgbuild := fun _ _ => "pkgbuild-text"
  reviewAccept := fun _ => true
  installRepoDepsOk := true
  buildPackage := fun _ => "artifact"
  installOk := fun _ => true

/-- First package of the pipeline scenario. -/
def pkg1 : PackageInfo := ⟨"p1", "1", "", [], [], []⟩

/-- Second package of the pipeline scenario. -/
def pkg2 : PackageInfo := ⟨"p2", "1", "", [], [], []⟩

/-- Trace of the review pass over a package list. -/
def reviewTraceShape : List PackageInfo → List BuildEv
  | [] => []
  | p :: rest => BuildEv.fetchPkgbuild p.name :: BuildEv.review p.name ::
      reviewTraceShape rest

/-- Trace of the build-and-install pass over a package list. -/
def buildTraceShape : Nat → List PackageInfo → List BuildEv
  | _, [] => []
  | idx, p :: rest => BuildEv.build idx p.name :: BuildEv.install idx p.name ::
      BuildEv.reload :: buildTraceShape (idx + 1) rest

/-! Basic lemmas about the list-based set and map operations. -/
theorem contains_iff {l : List String} {a : String} : l.contains a = true ↔ a ∈ l := by
  simp [List.contains]

theorem contains_false_iff {l : List String} {a : String} :
    l.contains a = false ↔ a ∉ l := by
  rw [← Bool.not_eq_true, contains_iff]

theorem mem_sinsert {l : List String} {a x : String} :
    a ∈ sinsert x l ↔ a = x ∨ a ∈ l := by
  unfold sinsert
  by_cases h : x ∈ l
  · rw [if_pos (contains_iff.mpr h)]
    exact ⟨fun ha => Or.inr ha, fun ha => ha.elim (fun he => he ▸ h) id⟩
  · rw [if_neg (by simp [contains_iff]; exact h)]
    simp [List.mem_cons]

theorem self_mem_sinsert (x : String) (l : List String) : x ∈ sinsert x l :=
  mem_sinsert.mpr (Or.inl rfl)

theorem mem_sinsert_of_mem {l : List String} {a : String} (x : String) (h : a ∈ l) :
    a ∈ sinsert x l :=
  mem_sinsert.mpr (Or.inr h)

theorem erase_sinsert {l : List String} {x : String} (h : x ∉ l) :
    (sinsert x l).erase x = l := by
  unfold sinsert
  rw [if_neg (by simp [contains_iff]; exact h)]
  exact List.erase_cons_head x l

theorem mapFind_insert_self (k : String) (v : α) (m : List (String × α)) :
    mapFind k (mapInsert k v m) = some v := by
  simp [mapFind, mapInsert, List.find?]

theorem mapFind_insert_ne {k k' : String} (h : k' ≠ k) (v : α) (m : List (String × α)) :
    mapFind k' (mapInsert k v m) = mapFind k' m := by
  simp only [mapFind, mapInsert, List.find?]
  have : (k == k') = false := by simp [beq_eq_false_iff_ne]; exact fun e => h e.symm
  simp [this]

theorem mapFind_insert_isSome {k k' : String} {v : α} {m : List (String × α)}
    (h : (mapFind k' m).isSome = true) :
    (mapFind k' (mapInsert k v m)).isSome = true := by
  by_cases he : k' = k
  · subst he; rw [mapFind_insert_self]; rfl
  · rw [mapFind_insert_ne he]; exact h

theorem mapFind_mem {k : String} {v : α} {m : List (String × α)}
    (h : mapFind k m = some v) : (k, v) ∈ m := by
  induction m with
  | nil => simp [mapFind] at h
  | cons e rest ih =>
    obtain ⟨a, b⟩ := e
    by_cases he : (a == k) = true
    · simp only [mapFind, List.find?, he] at h
      have hk : a = k := eq_of_beq he
      injection h with h2
      subst h2
      subst hk
      exact List.mem_cons_self _ _
    · rw [Bool.not_eq_true] at he
      simp only [mapFind, List.find?, he] at h
      exact List.mem_cons_of_mem (a, b) (ih h)

theorem cacheBatch_cons (p : PackageInfo) (ps : List PackageInfo)
    (m : List (String × PackageInfo)) :
    cacheBatch (p :: ps) m = cacheBatch ps (mapInsert p.name p m) := rfl

theorem cacheBatch_isSome {k : String} {ps : List PackageInfo}
    {m : List (String × PackageInfo)} (h : (mapFind k m).isSome = true) :
    (mapFind k (cacheBatch ps m)).isSome = true := by
  induction ps generalizing m with
  | nil => exact h
  | cons p rest ih => exact ih (mapFind_insert_isSome h)

theorem cacheBatch_find_of_mem {k : String} {ps : List PackageInfo}
    {m : List (String × PackageInfo)} {p : PackageInfo}
    (hp : p ∈ ps) (hk : p.name = k) :
    (mapFind k (cacheBatch ps m)).isSome = true := by
  induction ps generalizing m with
  | nil => cases hp
  | cons q rest ih =>
    rcases List.mem_cons.mp hp with hq | hq
    · subst hq
      rw [cacheBatch_cons]
      exact cacheBatch_isSome (by rw [← hk, mapFind_insert_self]; rfl)
    · rw [cacheBatch_cons]
      exact ih hq

theorem cacheBatch_mem {k : String} {v : PackageInfo} {ps : List PackageInfo}
    {m : List (String × PackageInfo)} (h : (k, v) ∈ cacheBatch ps m) :
    (k, v) ∈ m ∨ (v ∈ ps ∧ k = v.name) := by
  induction ps generalizing m with
  | nil => exact Or.inl h
  | cons p rest ih =>
    rw [cacheBatch_cons] at h
    rcases ih h with hm | hps
    · rcases List.mem_cons.mp hm with he | hm2
      · have hk2 : k = p.name := congrArg Prod.fst he
        have hv2 : v = p := congrArg Prod.snd he
        subst hv2
        exact Or.inr ⟨List.mem_cons_self v rest, hk2⟩
      · exact Or.inl hm2
    · exact Or.inr ⟨List.mem_cons_of_mem p hps.1, hps.2⟩

theorem mem_unknownDeps {env : Env} {s : ResolverState} {deps : List String}
    {dep : String} (hd : dep ∈ deps)
    (h1 : s.visited.contains (strip_version dep) = false)
    (h2 : s.in_stack.contains (strip_version dep) = false)
    (h3 : env.isDepSatisfied dep = false)
    (h4 : env.isDepInRepos dep = false)
    (h5 : mapFind (strip_version dep) s.aur_cache = none) :
    strip_version dep ∈ unknownDeps env s deps := by
  unfold unknownDeps
  refine List.mem_map.mpr ⟨dep, ?_, rfl⟩
  refine List.mem_filter.mpr ⟨hd, ?_⟩
  simp [h3, h4, h5, contains_false_iff.mp h1, contains_false_iff.mp h2]

theorem mem_infoBatch {env : Env} {names : List String} {n : String} {p : PackageInfo}
    (hn : n ∈ names) (hp : env.aurInfo n = some p) : p ∈ infoBatch env names :=
  List.mem_filterMap.mpr ⟨n, hn, hp⟩

/-! Step lemmas: one unfolding equation per branch of the traversal. -/
theorem dfs_step_visited (env : Env) (fuel : Nat) (name : String) (s : ResolverState)
    (h : name ∈ s.visited) :
    dfs env (fuel + 1) name s = (true, s) := by
  simp [dfs, h]

theorem dfs_step_instack (env : Env) (fuel : Nat) (name : String) (s : ResolverState)
    (h1 : name ∉ s.visited) (h2 : name ∈ s.in_stack) :
    dfs env (fuel + 1) name s =
      (false, {s with error := "Circular dependency detected: " ++ name}) := by
  simp [dfs, h1, h2]

theorem dfs_step_cachehit (env : Env) (fuel : Nat) (name : String) (s : ResolverState)
    (pkg : PackageInfo)
    (h1 : name ∉ s.visited) (h2 : name ∉ s.in_stack)
    (h3 : mapFind name s.aur_cache = some pkg) :
    dfs env (fuel + 1) name s =
      dfsBody env fuel name pkg
        {s with in_stack := sinsert name s.in_stack,
                log := s.log ++ ["Fetching AUR info for " ++ name ++ "..."]} := by
  simp [dfs, h1, h2, h3]

theorem dfs_step_fetch (env : Env) (fuel : Nat) (name : String) (s : ResolverState)
    (pkg : PackageInfo)
    (h1 : name ∉ s.visited) (h2 : name ∉ s.in_stack)
    (h3 : mapFind name s.aur_cache = none)
    (h4 : env.aurInfo name = some pkg) (h5 : pkg.name ≠ "") :
    dfs env (fuel + 1) name s =
      dfsBody env fuel name pkg
        {s with in_stack := sinsert name s.in_stack,
                log := s.log ++ ["Fetching AUR info for " ++ name ++ "..."],
                trace := s.trace ++ [AurCall.info name],
                aur_cache := mapInsert name pkg s.aur_cache} := by
  simp [dfs, h1, h2, h3, h4, h5]

theorem dfsBody_step_shortcut (env : Env) (fuel : Nat) (name : String)
    (pkg : PackageInfo) (s : ResolverState)
    (h : env.isDepSatisfied (pkg.name ++ "=" ++ pkg.version) = true) :
    dfsBody env (fuel + 1) name pkg s =
      (true, {s with log := s.log ++ ["Skipping " ++ name ++ " (" ++ pkg.version ++ " already installed)"],
                     visited := sinsert name s.visited,
                     in_stack := s.in_stack.erase name}) := by
  simp [dfsBody, h]

theorem dfsBody_step_deps (env : Env) (fuel : Nat) (name : String)
    (pkg : PackageInfo) (s : ResolverState)
    (h : env.isDepSatisfied (pkg.name ++ "=" ++ pkg.version) = false) :
    dfsBody env (fuel + 1) name pkg s =
      (let r := processDeps env fuel name (pkg.depends ++ pkg.makedepends)
                  (seedBatch env s (pkg.depends ++ pkg.makedepends))
       if r.1 then (true, finishPkg name pkg r.2) else (false, r.2)) := by
  simp [dfsBody, h]

theorem processDeps_step_nil (env : Env) (fuel : Nat) (name : String) (s : ResolverState) :
    processDeps env (fuel + 1) name [] s = (true, s) := rfl

theorem processDeps_step_sat (env : Env) (fuel : Nat) (name dep : String)
    (rest : List String) (s : ResolverState) (h : env.isDepSatisfied dep = true) :
    processDeps env (fuel + 1) name (dep :: rest) s =
      processDeps env fuel name rest {s with satisfied_deps := s.satisfied_deps ++ [dep]} := by
  simp [processDeps, h]

theorem processDeps_step_repo (env : Env) (fuel : Nat) (name dep : String)
    (rest : List String) (s : ResolverState)
    (h1 : env.isDepSatisfied dep = false) (h2 : env.isDepInRepos dep = true) :
    processDeps env (fuel + 1) name (dep :: rest) s =
      processDeps env fuel name rest {s with repo_deps := s.repo_deps ++ [dep]} := by
  simp [processDeps, h1, h2]

theorem processDeps_step_hit (env : Env) (fuel : Nat) (name dep : String)
    (rest : List String) (s : ResolverState)
    (h1 : env.isDepSatisfied dep = false) (h2 : env.isDepInRepos dep = false)
    (h3 : cacheHit (strip_version dep) s.aur_cache = true) :
    processDeps env (fuel + 1) name (dep :: rest) s =
      (let r := dfs env fuel (strip_version dep) s
       if r.1 then processDeps env fuel name rest r.2 else (false, r.2)) := by
  simp [processDeps, h1, h2, h3]

theorem processDeps_step_miss (env : Env) (fuel : Nat) (name dep : String)
    (rest : List String) (s : ResolverState)
    (h1 : env.isDepSatisfied dep = false) (h2 : env.isDepInRepos dep = false)
    (h3 : cacheHit (strip_version dep) s.aur_cache = false) :
    processDeps env (fuel + 1) name (dep :: rest) s =
      (let pr := find_provider env (strip_version dep) s
       if pr.1 == "" then
        (false, {pr.2 with error := "Dependency not found anywhere: " ++ dep ++ " (required by " ++ name ++ ")"})
       else
        let r := dfs env fuel pr.1 pr.2
        if r.1 then processDeps env fuel name rest r.2 else (false, r.2)) := by
  simp [processDeps, h1, h2, h3]

/-- Transfer of the invariant along a state change that leaves the four
relevant fields untouched. -/
theorem Inv.congr {env : Env} {s s' : ResolverState} (h : Inv env s)
    (hv : s'.visited = s.visited) (hi : s'.in_stack = s.in_stack)
    (hb : s'.build_order = s.build_order) (hc : s'.aur_cache = s.aur_cache) :
    Inv env s' := by
  refine ⟨?_, ?_, ?_, ?_, ?_, ?_, ?_⟩ <;> simp only [hv, hi, hb, hc]
  exacts [h.cacheOk, h.buildSound, h.namesVisited, h.stackCached, h.depDone, h.goodOrd, h.selfOk]

theorem DfsPost.refl {env : Env} {s : ResolverState} (h : Inv env s) : DfsPost env s s :=
  ⟨rfl, fun _ hn => hn, ⟨[], (List.append_nil _).symm⟩, fun _ hk => hk, fun _ _ hn => hn, h⟩

theorem DfsPost.trans {env : Env} {s1 s2 s3 : ResolverState}
    (a : DfsPost env s1 s2) (b : DfsPost env s2 s3) : DfsPost env s1 s3 := by
  refine ⟨a.stack_eq ▸ b.stack_eq, fun n hn => b.vis_mono n (a.vis_mono n hn), ?_,
          fun k hk => b.cache_mono k (a.cache_mono k hk), ?_, b.inv⟩
  · obtain ⟨t1, h1⟩ := a.build_ext
    obtain ⟨t2, h2⟩ := b.build_ext
    exact ⟨t1 ++ t2, by rw [h2, h1, List.append_assoc]⟩
  · intro n hn hv
    refine a.stack_not_vis n hn (b.stack_not_vis n ?_ hv)
    rw [a.stack_eq]
    exact hn

/-- A failed recursion guard means the name is genuinely absent from the
cache: under a well-behaved directory no cached descriptor has an empty
name, so `cacheHit` can only fail on a missing key. -/
theorem cacheHit_false_find_none {env : Env} {s : ResolverState}
    (HW : EnvWf env) (HI : Inv env s) {k : String}
    (h : cacheHit k s.aur_cache = false) : mapFind k s.aur_cache = none := by
  cases hm : mapFind k s.aur_cache with
  | none => rfl
  | some p =>
    exfalso
    have hinfo : env.aurInfo k = some p := HI.cacheOk _ _ (mapFind_mem hm)
    have hname : p.name = k := HW.info_name _ _ hinfo
    unfold cacheHit at h
    rw [hm] at h
    simp only [Bool.not_eq_false'] at h
    have : p.name = "" := eq_of_beq h
    rw [hname] at this
    subst this
    rw [HW.no_empty] at hinfo
    cases hinfo

/-- State facts about `find_provider`: the invariant is preserved, the
traversal-relevant fields other than the caches are untouched, and the
descriptor cache only grows. -/
theorem find_provider_post (env : Env) (nm : String) (s : ResolverState)
    (HW : EnvWf env) (HI : Inv env s) :
    Inv env (find_provider env nm s).2 ∧
    (find_provider env nm s).2.in_stack = s.in_stack ∧
    (find_provider env nm s).2.visited = s.visited ∧
    (find_provider env nm s).2.build_order = s.build_order ∧
    (∀ k, (mapFind k s.aur_cache).isSome = true →
      (mapFind k (find_provider env nm s).2.aur_cache).isSome = true) := by
  unfold find_provider
  cases hm : mapFind nm s.provides_map with
  | some v =>
    exact ⟨HI, rfl, rfl, rfl, fun _ hk => hk⟩
  | none =>
    cases hf : (env.searchProvides nm).find? (providerMatch nm) with
    | some p =>
      have hp : p ∈ env.searchProvides nm := List.mem_of_find?_eq_some hf
      have hinfo : env.aurInfo p.name = some p := HW.provides_sound _ _ hp
      refine ⟨⟨?_, HI.buildSound, HI.namesVisited, ?_, HI.depDone, HI.goodOrd, HI.selfOk⟩,
              rfl, rfl, rfl, ?_⟩
      · intro k q hkq
        rcases List.mem_cons.mp hkq with he | hold
        · have h1 : k = p.name := congrArg Prod.fst he
          have h2 : q = p := congrArg Prod.snd he
          subst h2
          rw [h1]
          exact hinfo
        · exact HI.cacheOk _ _ hold
      · intro n hn
        exact mapFind_insert_isSome (HI.stackCached n hn)
      · intro k hk
        exact mapFind_insert_isSome hk
    | none =>
      exact ⟨⟨HI.cacheOk, HI.buildSound, HI.namesVisited, HI.stackCached, HI.depDone,
              HI.goodOrd, HI.selfOk⟩, rfl, rfl, rfl, fun _ hk => hk⟩

/-- State facts about `seedBatch`: the invariant is preserved, the fields
other than the cache are untouched, and the cache only grows. -/
theorem seedBatch_post (env : Env) (s : ResolverState) (deps : List String)
    (HW : EnvWf env) (HI : Inv env s) :
    Inv env (seedBatch env s deps) ∧
    (seedBatch env s deps).in_stack = s.in_stack ∧
    (seedBatch env s deps).visited = s.visited ∧
    (seedBatch env s deps).build_order = s.build_order ∧
    (∀ k, (mapFind k s.aur_cache).isSome = true →
      (mapFind k (seedBatch env s deps).aur_cache).isSome = true) := by
  unfold seedBatch
  by_cases he : (unknownDeps env s deps).isEmpty
  · rw [if_pos he]
    exact ⟨HI, rfl, rfl, rfl, fun _ hk => hk⟩
  · rw [if_neg he]
    refine ⟨⟨?_, HI.buildSound, HI.namesVisited, ?_, HI.depDone, HI.goodOrd, HI.selfOk⟩,
            rfl, rfl, rfl, ?_⟩
    · intro k q hkq
      rcases cacheBatch_mem hkq with hold | ⟨hq, hk⟩
      · exact HI.cacheOk _ _ hold
      · obtain ⟨n, _, hn⟩ := List.mem_filterMap.mp hq
        have : q.name = n := HW.info_name _ _ hn
        rw [hk, this]
        exact hn
    · intro n hn
      exact cacheBatch_isSome (HI.stackCached n hn)
    · intro k hk
      exact cacheBatch_isSome hk

/-- After the batch step of a frame, every dependency of the frame that is
neither satisfied nor repo-available and that the directory does know is
either already visited or present in the cache. -/
theorem seedBatch_covers (env : Env) (s : ResolverState) (deps : List String)
    (HW : EnvWf env) (HI : Inv env s) {d : String}
    (hd : d ∈ deps) (h1 : env.isDepSatisfied d = false) (h2 : env.isDepInRepos d = false)
    {q : PackageInfo} (hq : env.aurInfo (strip_version d) = some q) :
    (mapFind (strip_version d) (seedBatch env s deps).aur_cache).isSome = true ∨
    strip_version d ∈ s.visited := by
  by_cases hv : strip_version d ∈ s.visited
  · exact Or.inr hv
  · left
    by_cases hcs : (mapFind (strip_version d) s.aur_cache).isSome = true
    · exact (seedBatch_post env s deps HW HI).2.2.2.2 _ hcs
    · by_cases hst : strip_version d ∈ s.in_stack
      · exact absurd (HI.stackCached _ hst) hcs
      · have hnone : mapFind (strip_version d) s.aur_cache = none :=
          Option.not_isSome_iff_eq_none.mp (by simpa using hcs)
        have hmem : strip_version d ∈ unknownDeps env s deps :=
          mem_unknownDeps hd (contains_false_iff.mpr hv) (contains_false_iff.mpr hst)
            h1 h2 hnone
        have hne : ¬(unknownDeps env s deps).isEmpty := by
          intro hemp
          rw [List.isEmpty_iff] at hemp
          rw [hemp] at hmem
          cases hmem
        unfold seedBatch
        rw [if_neg hne]
        have hqb : q ∈ infoBatch env (unknownDeps env s deps) := mem_infoBatch hmem hq
        exact cacheBatch_find_of_mem hqb (HW.info_name _ _ hq)

theorem proc_succ_ok (fuel : Nat) (ihD : DfsOk fuel) (ihP : ProcOk fuel) :
    ProcOk (fuel + 1) := by
  intro env name deps s bs HW HI hrun
  match deps with
  | [] =>
    rw [processDeps_step_nil] at hrun
    injection hrun with h1 h2
    subst h2
    exact ⟨DfsPost.refl HI, fun d hd => absurd hd (List.not_mem_nil d)⟩
  | dep :: rest =>
    by_cases hs : env.isDepSatisfied dep = true
    · rw [processDeps_step_sat _ _ _ _ _ _ hs] at hrun
      have HI1 : Inv env {s with satisfied_deps := s.satisfied_deps ++ [dep]} :=
        HI.congr rfl rfl rfl rfl
      obtain ⟨post, dres⟩ := ihP env name rest _ bs HW HI1 hrun
      have base : DfsPost env s {s with satisfied_deps := s.satisfied_deps ++ [dep]} :=
        ⟨rfl, fun _ h => h, ⟨[], (List.append_nil _).symm⟩, fun _ h => h, fun _ _ h => h, HI1⟩
      refine ⟨base.trans post, ?_⟩
      intro d hd
      rcases List.mem_cons.mp hd with he | hr
      · subst he
        intro hsat _
        rw [hs] at hsat
        cases hsat
      · exact dres d hr
    · have hs' : env.isDepSatisfied dep = false := by
        cases h : env.isDepSatisfied dep
        · rfl
        · exact absurd h hs
      by_cases hrp : env.isDepInRepos dep = true
      · rw [processDeps_step_repo _ _ _ _ _ _ hs' hrp] at hrun
        have HI1 : Inv env {s with repo_deps := s.repo_deps ++ [dep]} :=
          HI.congr rfl rfl rfl rfl
        obtain ⟨post, dres⟩ := ihP env name rest _ bs HW HI1 hrun
        have base : DfsPost env s {s with repo_deps := s.repo_deps ++ [dep]} :=
          ⟨rfl, fun _ h => h, ⟨[], (List.append_nil _).symm⟩, fun _ h => h, fun _ _ h => h, HI1⟩
        refine ⟨base.trans post, ?_⟩
        intro d hd
        rcases List.mem_cons.mp hd with he | hr
        · subst he
          intro _ hrepo
          rw [hrp] at hrepo
          cases hrepo
        · exact dres d hr
      · have hrp' : env.isDepInRepos dep = false := by
          cases h : env.isDepInRepos dep
          · rfl
          · exact absurd h hrp
        by_cases hh : cacheHit (strip_version dep) s.aur_cache = true
        · rw [processDeps_step_hit _ _ _ _ _ _ hs' hrp' hh] at hrun
          simp only at hrun
          cases hrd : dfs env fuel (strip_version dep) s with
          | mk b s2 =>
            rw [hrd] at hrun
            cases b with
            | false => simp at hrun
            | true =>
              simp only [if_true] at hrun
              obtain ⟨postD, hkey⟩ := ihD env (strip_version dep) s s2 HW HI hrd
              obtain ⟨postP, dres⟩ := ihP env name rest s2 bs HW postD.inv hrun
              refine ⟨postD.trans postP, ?_⟩
              intro d hd
              rcases List.mem_cons.mp hd with he | hr
              · subst he
                intro _ _
                exact Or.inl (postP.vis_mono _ hkey)
              · intro h1 h2
                rcases dres d hr h1 h2 with hv | hn
                · exact Or.inl hv
                · cases hm : mapFind (strip_version d) s.aur_cache with
                  | none => exact Or.inr rfl
                  | some q =>
                    have : (mapFind (strip_version d) s2.aur_cache).isSome = true :=
                      postD.cache_mono _ (by rw [hm]; rfl)
                    rw [hn] at this
                    cases this
        · have hh' : cacheHit (strip_version dep) s.aur_cache = false := by
            cases h : cacheHit (strip_version dep) s.aur_cache
            · rfl
            · exact absurd h hh
          have hmiss : mapFind (strip_version dep) s.aur_cache = none :=
            cacheHit_false_find_none HW HI hh'
          rw [processDeps_step_miss _ _ _ _ _ _ hs' hrp' hh'] at hrun
          simp only at hrun
          obtain ⟨HIf, hfi, hfv, hfb, hfc⟩ :=
            find_provider_post env (strip_version dep) s HW HI
          by_cases hpr : ((find_provider env (strip_version dep) s).1 == "") = true
          · rw [if_pos hpr] at hrun
            simp at hrun
          · rw [if_neg hpr] at hrun
            have basef : DfsPost env s (find_provider env (strip_version dep) s).2 :=
              ⟨hfi, fun n h => hfv ▸ h, ⟨[], by rw [hfb, List.append_nil]⟩, hfc,
               fun n _ h => hfv ▸ h, HIf⟩
            cases hrd : dfs env fuel (find_provider env (strip_version dep) s).1
                (find_provider env (strip_version dep) s).2 with
            | mk b s2 =>
              rw [hrd] at hrun
              cases b with
              | false => simp at hrun
              | true =>
                simp only [if_true] at hrun
                obtain ⟨postD, _⟩ := ihD env _ _ s2 HW HIf hrd
                obtain ⟨postP, dres⟩ := ihP env name rest s2 bs HW postD.inv hrun
                refine ⟨(basef.trans postD).trans postP, ?_⟩
                intro d hd
                rcases List.mem_cons.mp hd with he | hr
                · subst he
                  intro _ _
                  exact Or.inr hmiss
                · intro h1 h2
                  rcases dres d hr h1 h2 with hv | hn
                  · exact Or.inl hv
                  · cases hm : mapFind (strip_version d) s.aur_cache with
                    | none => exact Or.inr rfl
                    | some q =>
                      have : (mapFind (strip_version d) s2.aur_cache).isSome = true :=
                        postD.cache_mono _ (hfc _ (by rw [hm]; rfl))
                      rw [hn] at this
                      cases this

theorem body_succ_ok (fuel : Nat) (ihP : ProcOk fuel) : BodyOk (fuel + 1) := by
  intro env name pkg s bs HW HI hinfo hcache hnv hns hrun
  have hpname : pkg.name = name := HW.info_name _ _ hinfo
  by_cases hsat : env.isDepSatisfied (pkg.name ++ "=" ++ pkg.version) = true
  · rw [dfsBody_step_shortcut _ _ _ _ _ hsat] at hrun
    injection hrun with h1 h2
    subst h2
    refine ⟨rfl, fun n hn => mem_sinsert_of_mem name hn, ⟨[], (List.append_nil _).symm⟩,
            fun _ hk => hk, ?_, ?_, self_mem_sinsert name s.visited⟩
    · intro n hne _ hvis
      rcases mem_sinsert.mp hvis with he | hv
      · exact absurd he hne
      · exact hv
    · refine ⟨HI.cacheOk, HI.buildSound, ?_, ?_, ?_, HI.goodOrd, HI.selfOk⟩
      · intro p hp
        exact mem_sinsert_of_mem name (HI.namesVisited p hp)
      · intro n hn
        exact HI.stackCached n (List.mem_of_mem_erase hn)
      · intro p hp d hd h1 h2
        rcases HI.depDone p hp d hd h1 h2 with hv | hn
        · exact Or.inl (mem_sinsert_of_mem name hv)
        · exact Or.inr hn
  · have hsat' : env.isDepSatisfied (pkg.name ++ "=" ++ pkg.version) = false := by
      cases h : env.isDepSatisfied (pkg.name ++ "=" ++ pkg.version)
      · rfl
      · exact absurd h hsat
    rw [dfsBody_step_deps _ _ _ _ _ hsat'] at hrun
    simp only at hrun
    obtain ⟨HIB, hbi, hbv, hbb, hbc⟩ :=
      seedBatch_post env s (pkg.depends ++ pkg.makedepends) HW HI
    cases hpd : processDeps env fuel name (pkg.depends ++ pkg.makedepends)
        (seedBatch env s (pkg.depends ++ pkg.makedepends)) with
    | mk b s2 =>
      rw [hpd] at hrun
      cases b with
      | false => simp at hrun
      | true =>
        simp only [if_true] at hrun
        injection hrun with h1 h2
        subst h2
        obtain ⟨postP, dres⟩ := ihP env name (pkg.depends ++ pkg.makedepends) _ s2 HW HIB hpd
        have hnsB : name ∈ (seedBatch env s (pkg.depends ++ pkg.makedepends)).in_stack := by
          rw [hbi]
          exact hns
        have hnv2 : name ∉ s2.visited := by
          intro h
          exact hnv (by rw [← hbv]; exact postP.stack_not_vis name hnsB h)
        have hkey : ∀ d ∈ pkg.depends ++ pkg.makedepends,
            env.isDepSatisfied d = false → env.isDepInRepos d = false →
            strip_version d ∈ s2.visited ∨ env.aurInfo (strip_version d) = none := by
          intro d hd h1 h2
          rcases dres d hd h1 h2 with hv | hn
          · exact Or.inl hv
          · cases haur : env.aurInfo (strip_version d) with
            | none => exact Or.inr rfl
            | some q =>
              rcases seedBatch_covers env s (pkg.depends ++ pkg.makedepends) HW HI
                  hd h1 h2 haur with hc | hvv
              · rw [hn] at hc
                cases hc
              · left
                refine postP.vis_mono _ ?_
                rw [hbv]
                exact hvv
        have hfresh : ∀ u ∈ s2.build_order, depOrdRel env u pkg := by
          intro u hu d hd h1 h2
          rw [hpname]
          rcases postP.inv.depDone u hu d hd h1 h2 with hv | hn
          · intro he
            rw [he] at hnv2
            exact hnv2 hv
          · intro he
            rw [← he] at hn
            rw [hn] at hinfo
            cases hinfo
        have hselfnew : ∀ d ∈ pkg.depends ++ pkg.makedepends,
            env.isDepSatisfied d = false → env.isDepInRepos d = false →
            pkg.name ≠ strip_version d := by
          intro d hd h1 h2
          rw [hpname]
          rcases hkey d hd h1 h2 with hv | hn
          · intro he
            rw [he] at hnv2
            exact hnv2 hv
          · intro he
            rw [← he] at hn
            rw [hn] at hinfo
            cases hinfo
        refine ⟨?_, ?_, ?_, ?_, ?_, ?_, ?_⟩
        · show (s2.in_stack.erase name) = s.in_stack.erase name
          rw [postP.stack_eq, hbi]
        · intro n hn
          refine mem_sinsert_of_mem name (postP.vis_mono n ?_)
          rw [hbv]
          exact hn
        · obtain ⟨t, ht⟩ := postP.build_ext
          refine ⟨t ++ [pkg], ?_⟩
          show s2.build_order ++ [pkg] = s.build_order ++ (t ++ [pkg])
          rw [ht, hbb, List.append_assoc]
        · intro k hk
          exact postP.cache_mono k (hbc k hk)
        · intro n hne hn hvis
          rcases mem_sinsert.mp hvis with he | hv
          · exact absurd he hne
          · rw [← hbv]
            exact postP.stack_not_vis n (by rw [hbi]; exact hn) hv
        · refine ⟨postP.inv.cacheOk, ?_, ?_, ?_, ?_, ?_, ?_⟩
          · intro p hp
            rcases List.mem_append.mp hp with hold | hnew
            · exact postP.inv.buildSound p hold
            · rw [List.mem_singleton.mp hnew, hpname]
              exact hinfo
          · intro p hp
            rcases List.mem_append.mp hp with hold | hnew
            · exact mem_sinsert_of_mem name (postP.inv.namesVisited p hold)
            · rw [List.mem_singleton.mp hnew, hpname]
              exact self_mem_sinsert name s2.visited
          · intro n hn
            exact postP.inv.stackCached n (List.mem_of_mem_erase hn)
          · intro p hp d hd h1 h2
            rcases List.mem_append.mp hp with hold | hnew
            · rcases postP.inv.depDone p hold d hd h1 h2 with hv | hn
              · exact Or.inl (mem_sinsert_of_mem name hv)
              · exact Or.inr hn
            · rw [List.mem_singleton.mp hnew] at hd
              rcases hkey d hd h1 h2 with hv | hn
              · exact Or.inl (mem_sinsert_of_mem name hv)
              · exact Or.inr hn
          · refine List.pairwise_append.mpr ⟨postP.inv.goodOrd, List.pairwise_singleton _ _, ?_⟩
            intro u hu v hv
            rw [List.mem_singleton.mp hv]
            exact hfresh u hu
          · intro p hp d hd h1 h2
            rcases List.mem_append.mp hp with hold | hnew
            · exact postP.inv.selfOk p hold d hd h1 h2
            · rw [List.mem_singleton.mp hnew] at hd ⊢
              exact hselfnew d hd h1 h2
        · exact self_mem_sinsert name s2.visited

/-- Pushing a cached name onto the in-progress set preserves the invariant. -/
theorem inv_push_cachehit (env : Env) (name : String) (s : ResolverState)
    (pkg : PackageInfo) (HI : Inv env s) (hc : mapFind name s.aur_cache = some pkg) :
    Inv env {s with in_stack := sinsert name s.in_stack,
                    log := s.log ++ ["Fetching AUR info for " ++ name ++ "..."]} := by
  refine ⟨HI.cacheOk, HI.buildSound, HI.namesVisited, ?_, HI.depDone,
          HI.goodOrd, HI.selfOk⟩
  intro n hn
  rcases mem_sinsert.mp hn with he | hold
  · subst he
    show (mapFind n s.aur_cache).isSome = true
    rw [hc]
    rfl
  · exact HI.stackCached n hold

/-- Pushing a freshly fetched name onto the in-progress set and caching its
descriptor preserves the invariant. -/
theorem inv_push_fetch (env : Env) (name : String) (s : ResolverState)
    (pkg : PackageInfo) (HI : Inv env s) (ha : env.aurInfo name = some pkg) :
    Inv env {s with in_stack := sinsert name s.in_stack,
                    log := s.log ++ ["Fetching AUR info for " ++ name ++ "..."],
                    trace := s.trace ++ [AurCall.info name],
                    aur_cache := mapInsert name pkg s.aur_cache} := by
  refine ⟨?_, HI.buildSound, HI.namesVisited, ?_, HI.depDone, HI.goodOrd, HI.selfOk⟩
  · intro k q hkq
    rcases List.mem_cons.mp hkq with he | hold
    · have h1 : k = name := congrArg Prod.fst he
      have h2 : q = pkg := congrArg Prod.snd he
      subst h2
      rw [h1]
      exact ha
    · exact HI.cacheOk _ _ hold
  · intro n hn
    rcases mem_sinsert.mp hn with he | hold
    · subst he
      show (mapFind n (mapInsert n pkg s.aur_cache)).isSome = true
      rw [mapFind_insert_self]
      rfl
    · exact mapFind_insert_isSome (HI.stackCached n hold)

theorem dfs_succ_ok (fuel : Nat) (ihB : BodyOk fuel) : DfsOk (fuel + 1) := by
  intro env name s bs HW HI hrun
  by_cases hv : name ∈ s.visited
  · rw [dfs_step_visited _ _ _ _ hv] at hrun
    injection hrun with h1 h2
    subst h2
    exact ⟨DfsPost.refl HI, hv⟩
  · by_cases hstck : name ∈ s.in_stack
    · rw [dfs_step_instack _ _ _ _ hv hstck] at hrun
      simp at hrun
    · cases hc : mapFind name s.aur_cache with
      | some pkg =>
        rw [dfs_step_cachehit _ _ _ _ pkg hv hstck hc] at hrun
        have hinfo : env.aurInfo name = some pkg := HI.cacheOk _ _ (mapFind_mem hc)
        have HI1 := inv_push_cachehit env name s pkg HI hc
        have post := ihB env name pkg _ bs HW HI1 hinfo hc hv
          (self_mem_sinsert name s.in_stack) hrun
        refine ⟨⟨?_, post.vis_mono, post.build_ext, post.cache_mono, ?_, post.inv⟩,
                post.key_vis⟩
        · rw [post.stack_eq]
          show (sinsert name s.in_stack).erase name = s.in_stack
          exact erase_sinsert hstck
        · intro n hn hvis
          have hne : n ≠ name := fun he => hstck (he ▸ hn)
          exact post.stack_not_vis n hne (mem_sinsert_of_mem name hn) hvis
      | none =>
        cases ha : env.aurInfo name with
        | none =>
          simp [dfs, hv, hstck, hc, ha] at hrun
        | some pkg =>
          by_cases hne : pkg.name = ""
          · simp [dfs, hv, hstck, hc, ha, hne] at hrun
          · rw [dfs_step_fetch _ _ _ _ pkg hv hstck hc ha hne] at hrun
            have HI1 := inv_push_fetch env name s pkg HI ha
            have post := ihB env name pkg _ bs HW HI1 ha
              (mapFind_insert_self name pkg s.aur_cache) hv
              (self_mem_sinsert name s.in_stack) hrun
            refine ⟨⟨?_, post.vis_mono, post.build_ext, ?_, ?_, post.inv⟩, post.key_vis⟩
            · rw [post.stack_eq]
              show (sinsert name s.in_stack).erase name = s.in_stack
              exact erase_sinsert hstck
            · intro k hk
              exact post.cache_mono k (mapFind_insert_isSome hk)
            · intro n hn hvis
              have hne2 : n ≠ name := fun he => hstck (he ▸ hn)
              exact post.stack_not_vis n hne2 (mem_sinsert_of_mem name hn) hvis

theorem dfs_zero_ok : DfsOk 0 := by
  intro env name s bs _ _ hrun
  simp [dfs] at hrun

theorem body_zero_ok : BodyOk 0 := by
  intro env name pkg s bs _ _ _ _ _ _ hrun
  simp [dfsBody] at hrun

theorem proc_zero_ok : ProcOk 0 := by
  intro env name deps s bs _ _ hrun
  simp [processDeps] at hrun

/-- Main invariant of the traversal, proved by induction on the fuel. -/
theorem resolver_invariant : ∀ fuel, DfsOk fuel ∧ BodyOk fuel ∧ ProcOk fuel := by
  intro fuel
  induction fuel with
  | zero => exact ⟨dfs_zero_ok, body_zero_ok, proc_zero_ok⟩
  | succ fuel ih =>
    exact ⟨dfs_succ_ok fuel ih.2.1, body_succ_ok fuel ih.2.2,
           proc_succ_ok fuel ih.1 ih.2.2⟩

theorem resolve_unfold (env : Env) (fuel : Nat) (s0 : ResolverState) (name : String) :
    resolve env fuel s0 name =
      ({ ok := (dfs env fuel name (startState name)).1,
         error := (dfs env fuel name (startState name)).2.error,
         aur_build_order := (dedupLoop (dfs env fuel name (startState name)).2.build_order []).1,
         repo_deps := (dfs env fuel name (startState name)).2.repo_deps,
         satisfied_deps := (dfs env fuel name (startState name)).2.satisfied_deps },
       {(dfs env fuel name (startState name)).2 with
          log := (dfs env fuel name (startState name)).2.log ++
                 (dedupLoop (dfs env fuel name (startState name)).2.build_order []).2}) := rfl

theorem inv_start (env : Env) (name : String) : Inv env (startState name) := by
  refine ⟨?_, ?_, ?_, ?_, ?_, ?_, ?_⟩
  · intro k p h
    cases h
  · intro p h
    cases h
  · intro p h
    cases h
  · intro n h
    cases h
  · intro p h
    cases h
  · exact List.Pairwise.nil
  · intro p h
    cases h

theorem dedupLoop_sublist (l : List PackageInfo) (seen : List String) :
    List.Sublist (dedupLoop l seen).1 l := by
  induction l generalizing seen with
  | nil => exact List.nil_sublist []
  | cons p rest ih =>
    unfold dedupLoop
    by_cases h : seen.contains (pkgBase p)
    · rw [if_pos h]
      exact List.Sublist.cons p (ih seen)
    · rw [if_neg h]
      exact List.Sublist.cons₂ p (ih (pkgBase p :: seen))

theorem envOrd_wf : EnvWf envOrd := by
  refine ⟨?_, ?_, rfl⟩
  · intro n p h
    unfold envOrd at h
    simp only at h
    split_ifs at h with h1 h2 h3 h4 <;> injection h with he
    · rw [← he, h1]
      rfl
    · rw [← he, h2]
      rfl
    · rw [← he, h3]
      rfl
    · rw [← he, h4]
      rfl
  · intro d p h
    cases h

/-- C1, counterexample: on the acyclic graph of `envOrd` the resolve succeeds
with build order `[u, v, w, R]`; the declared edge from `u` to `v` has `v` in
the list at index 1, after `u` at index 0, because `u`'s bare dependency
string `v` is satisfied locally while `w`'s `v>=5` is not — so the ordering
property quantified over all declared edges is false. -/
theorem C1_claim_counterexample :
    (resolve envOrd 30 initState "R").1.ok = true ∧
    ((resolve envOrd 30 initState "R").1.aur_build_order.map PackageInfo.name
      = ["u", "v", "w", "R"]) ∧
    ¬ claimC1 ((resolve envOrd 30 initState "R").1.aur_build_order) := by
  refine ⟨by decide, by decide, ?_⟩
  intro h
  have := h 0 (by decide) 1 (by decide) "v" (by decide) (by decide)
  exact absurd this (by decide)

/-- C1, amended: for a well-behaved remote directory, whenever `resolve`
succeeds, the build list is ordered with respect to every declared dependency
edge whose dependency string is neither satisfied locally nor available from
a binary repository: no package at an index greater than or equal to the
dependent's carries the stripped dependency name, so a package named after
such a dependency can only sit strictly before its dependent. -/
theorem C1_order_amended (env : Env) (fuel : Nat) (s0 : ResolverState) (root : String)
    (HW : EnvWf env) (hok : (resolve env fuel s0 root).1.ok = true) :
    ∀ i j : Nat, i ≤ j →
      ∀ hj : j < (resolve env fuel s0 root).1.aur_build_order.length,
      ∀ d ∈ ((resolve env fuel s0 root).1.aur_build_order.getD i emptyPkg).depends ++
            ((resolve env fuel s0 root).1.aur_build_order.getD i emptyPkg).makedepends,
        env.isDepSatisfied d = false → env.isDepInRepos d = false →
        ((resolve env fuel s0 root).1.aur_build_order.getD j emptyPkg).name ≠
          strip_version d := by
  have hok' : (dfs env fuel root (startState root)).1 = true := hok
  cases hr : dfs env fuel root (startState root) with
  | mk b s1 =>
    have hb : b = true := by
      rw [hr] at hok'
      exact hok'
    subst hb
    obtain ⟨post, _⟩ :=
      (resolver_invariant fuel).1 env root (startState root) s1 HW (inv_start env root) hr
    have hlist : (resolve env fuel s0 root).1.aur_build_order =
        (dedupLoop s1.build_order []).1 := by
      show (dedupLoop (dfs env fuel root (startState root)).2.build_order []).1 =
        (dedupLoop s1.build_order []).1
      rw [hr]
    have hsub : List.Sublist (resolve env fuel s0 root).1.aur_build_order s1.build_order := by
      rw [hlist]
      exact dedupLoop_sublist s1.build_order []
    have pw : ((resolve env fuel s0 root).1.aur_build_order).Pairwise (depOrdRel env) :=
      post.inv.goodOrd.sublist hsub
    intro i j hij hj d hd h1 h2
    have hgd : ∀ (n : Nat) (hn : n < (resolve env fuel s0 root).1.aur_build_order.length),
        (resolve env fuel s0 root).1.aur_build_order.getD n emptyPkg =
        (resolve env fuel s0 root).1.aur_build_order.get ⟨n, hn⟩ := by
      intro n hn
      simp [List.getD_eq_getElem?_getD, List.getElem?_eq_getElem hn]
    rcases Nat.lt_or_ge i j with hlt | hge
    · have hi : i < (resolve env fuel s0 root).1.aur_build_order.length :=
        Nat.lt_trans hlt hj
      have hrel := List.pairwise_iff_get.mp pw ⟨i, hi⟩ ⟨j, hj⟩ hlt
      rw [hgd i hi] at hd
      rw [hgd j hj]
      exact hrel d hd h1 h2
    · have hji : i = j := Nat.le_antisymm hij hge
      subst hji
      rw [hgd i hj] at hd
      rw [hgd i hj]
      have hmem : (resolve env fuel s0 root).1.aur_build_order.get ⟨i, hj⟩ ∈ s1.build_order :=
        hsub.subset (List.get_mem _ i hj)
      exact post.inv.selfOk _ hmem d hd h1 h2

/-- C1, witness: the amended ordering theorem applied to the concrete
environment `envOrd`, whose resolution succeeds. -/
theorem C1_order_amended_witness :
    EnvWf envOrd ∧ (resolve envOrd 30 initState "R").1.ok = true ∧
    (∀ i j : Nat, i ≤ j →
      ∀ hj : j < (resolve envOrd 30 initState "R").1.aur_build_order.length,
      ∀ d ∈ ((resolve envOrd 30 initState "R").1.aur_build_order.getD i emptyPkg).depends ++
            ((resolve envOrd 30 initState "R").1.aur_build_order.getD i emptyPkg).makedepends,
        envOrd.isDepSatisfied d = false → envOrd.isDepInRepos d = false →
        ((resolve envOrd 30 initState "R").1.aur_build_order.getD j emptyPkg).name ≠
          strip_version d) :=
  ⟨envOrd_wf, by decide, C1_order_amended envOrd 30 initState "R" envOrd_wf (by decide)⟩

/-- C2: on the cyclic graph `A` depends on `B` depends on `A`, `resolve`
fails and the error names a circular dependency on a package of the cycle;
in general, entering `dfs` for a name still in the in-progress set is a hard
`CircularDependency` failure, while entering it for an already-visited name
succeeds as a pure no-op. -/
theorem C2_cycle_detection :
    ((resolve envCyc 30 initState "A").1.ok = false ∧
     (resolve envCyc 30 initState "A").1.error = "Circular dependency detected: A") ∧
    (∀ env fuel name s, name ∉ s.visited → name ∈ s.in_stack →
      dfs env (fuel + 1) name s =
        (false, {s with error := "Circular dependency detected: " ++ name})) ∧
    (∀ env fuel name s, name ∈ s.visited → dfs env (fuel + 1) name s = (true, s)) :=
  ⟨⟨by decide, by decide⟩,
   fun env fuel name s hv hs => dfs_step_instack env fuel name s hv hs,
   fun env fuel name s hv => dfs_step_visited env fuel name s hv⟩

/-- C2, witness: both general conjuncts applied at a concrete state. -/
theorem C2_cycle_detection_witness :
    ("A" ∉ cycState.visited ∧ "A" ∈ cycState.in_stack ∧
      dfs envCyc 1 "A" cycState =
        (false, {cycState with error := "Circular dependency detected: " ++ "A"})) ∧
    ("B" ∈ cycState.visited ∧ dfs envCyc 1 "B" cycState = (true, cycState)) :=
  ⟨⟨by decide, by decide, C2_cycle_detection.2.1 envCyc 0 "A" cycState (by decide) (by decide)⟩,
   ⟨by decide, C2_cycle_detection.2.2 envCyc 0 "B" cycState (by decide)⟩⟩

/-- Names already visited or in progress are excluded from the batch-fetch
collection loop. -/
theorem not_mem_unknownDeps (env : Env) (s : ResolverState) (deps : List String)
    (n : String) (h : n ∈ s.visited ∨ n ∈ s.in_stack) :
    n ∉ unknownDeps env s deps := by
  intro hmem
  unfold unknownDeps at hmem
  obtain ⟨d, hd, hstrip⟩ := List.mem_map.mp hmem
  have hpred := (List.mem_filter.mp hd).2
  rw [hstrip] at hpred
  simp only [Bool.and_eq_true, Bool.not_eq_true'] at hpred
  rcases h with hv | hs
  · exact contains_false_iff.mp hpred.1.1.1.1 hv
  · exact contains_false_iff.mp hpred.1.1.1.2 hs

/-- C7, counterexample: while `q` is being classified, the bare name `p` of
its dependency is in the in-progress set; the claim predicts the dependency
is skipped as a no-op and the resolution of the enclosing package continues
successfully, but the code recurses into `p` and fails the whole resolution
with a circular-dependency error. -/
theorem C7_claim_counterexample :
    (resolve envCyc2 30 initState "p").1.ok = false ∧
    (resolve envCyc2 30 initState "p").1.error = "Circular dependency detected: p" :=
  ⟨by decide, by decide⟩

/-- C7, amended: a dependency whose bare name is already visited is indeed a
successful no-op (`dfs` returns immediately with the state unchanged), and a
visited or in-progress bare name is excluded from the batch-fetch collection;
but a bare name still in progress is not skipped by the classification loop —
entering `dfs` for it is the hard circular-dependency failure. -/
theorem C7_skip_amended :
    (∀ env fuel name s, name ∈ s.visited → dfs env (fuel + 1) name s = (true, s)) ∧
    (∀ env s deps n, n ∈ s.visited ∨ n ∈ s.in_stack → n ∉ unknownDeps env s deps) ∧
    (∀ env fuel name s, name ∉ s.visited → name ∈ s.in_stack →
      dfs env (fuel + 1) name s =
        (false, {s with error := "Circular dependency detected: " ++ name})) :=
  ⟨fun env fuel name s hv => dfs_step_visited env fuel name s hv,
   fun env s deps n h => not_mem_unknownDeps env s deps n h,
   fun env fuel name s hv hs => dfs_step_instack env fuel name s hv hs⟩

/-- C7, witness: the amended statements applied at a concrete state. -/
theorem C7_skip_amended_witness :
    ("q" ∈ skipState.visited ∧ dfs envCyc2 1 "q" skipState = (true, skipState)) ∧
    (("q" ∈ skipState.visited ∨ "q" ∈ skipState.in_stack) ∧
      "q" ∉ unknownDeps envCyc2 skipState ["q", "p"]) ∧
    ("p" ∉ skipState.visited ∧ "p" ∈ skipState.in_stack ∧
      dfs envCyc2 1 "p" skipState =
        (false, {skipState with error := "Circular dependency detected: " ++ "p"})) :=
  ⟨⟨by decide, C7_skip_amended.1 envCyc2 0 "q" skipState (by decide)⟩,
   ⟨Or.inl (by decide), C7_skip_amended.2.1 envCyc2 skipState ["q", "p"] "q" (Or.inl (by decide))⟩,
   ⟨by decide, by decide, C7_skip_amended.2.2 envCyc2 0 "p" skipState (by decide) (by decide)⟩⟩

/-! Claim C5: the already-installed shortcut. -/
/-- C5: when a freshly reached name resolves to a descriptor whose exact
version is already satisfied locally, the branch succeeds immediately: the
name is marked visited, the only state changes are the cached descriptor, the
two log lines and the single info call — in particular the build list, the
repo and satisfied sets are unchanged and no dependency of the package is
fetched (no batch or provider call) or classified. -/
theorem C5_installed_shortcut (env : Env) (fuel : Nat) (name : String)
    (s : ResolverState) (pkg : PackageInfo)
    (h1 : name ∉ s.visited) (h2 : name ∉ s.in_stack)
    (h3 : mapFind name s.aur_cache = none)
    (h4 : env.aurInfo name = some pkg) (h5 : pkg.name ≠ "")
    (h6 : env.isDepSatisfied (pkg.name ++ "=" ++ pkg.version) = true) :
    dfs env (fuel + 1 + 1) name s =
      (true, {s with visited := sinsert name s.visited,
                     aur_cache := mapInsert name pkg s.aur_cache,
                     log := s.log ++ ["Fetching AUR info for " ++ name ++ "...",
                                      "Skipping " ++ name ++ " (" ++ pkg.version ++ " already installed)"],
                     trace := s.trace ++ [AurCall.info name]}) := by
  rw [dfs_step_fetch env (fuel + 1) name s pkg h1 h2 h3 h4 h5]
  rw [dfsBody_step_shortcut env fuel name pkg _ h6]
  simp [erase_sinsert h2, List.append_assoc]

/-- C5, witness: the shortcut theorem applied to the concrete scenario. -/
theorem C5_installed_shortcut_witness :
    ("z" ∉ initState.visited ∧ "z" ∉ initState.in_stack ∧
     mapFind "z" initState.aur_cache = none ∧
     envShort.aurInfo "z" = some pkgZ ∧ pkgZ.name ≠ "" ∧
     envShort.isDepSatisfied (pkgZ.name ++ "=" ++ pkgZ.version) = true) ∧
    dfs envShort 2 "z" initState =
      (true, {initState with visited := sinsert "z" initState.visited,
                             aur_cache := mapInsert "z" pkgZ initState.aur_cache,
                             log := initState.log ++
                               ["Fetching AUR info for " ++ "z" ++ "...",
                                "Skipping " ++ "z" ++ " (" ++ pkgZ.version ++ " already installed)"],
                             trace := initState.trace ++ [AurCall.info "z"]}) :=
  ⟨⟨by decide, by decide, by decide, by decide, by decide, by decide⟩,
   C5_installed_shortcut envShort 0 "z" initState pkgZ (by decide) (by decide)
     (by decide) (by decide) (by decide) (by decide)⟩

/-- C3: a transitively required dependency with no provider anywhere aborts
the entire resolution — concretely, resolving `root` whose transitive
dependency `libzap>=2` is unresolvable yields a failed result carrying an
empty build list and an error naming both the dependency string and its
requirer `mid`; and in general, for every dependency string and requirer
name, the classification loop fails with exactly that error when the local
database, the repositories, the cache and the provider search all come up
empty. -/
theorem C3_dependency_not_found :
    ((resolve envMissing 30 initState "root").1 =
      { ok := false,
        error := "Dependency not found anywhere: libzap>=2 (required by mid)",
        aur_build_order := [], repo_deps := [], satisfied_deps := [] }) ∧
    (∀ env fuel name dep rest s,
      env.isDepSatisfied dep = false → env.isDepInRepos dep = false →
      cacheHit (strip_version dep) s.aur_cache = false →
      (find_provider env (strip_version dep) s).1 = "" →
      processDeps env (fuel + 1) name (dep :: rest) s =
        (false, {(find_provider env (strip_version dep) s).2 with
          error := "Dependency not found anywhere: " ++ dep ++ " (required by " ++ name ++ ")"})) := by
  constructor
  · decide
  · intro env fuel name dep rest s hs hr hc hp
    rw [processDeps_step_miss env fuel name dep rest s hs hr hc]
    simp only [hp]
    rfl

/-- C3, witness: the general conjunct applied at a concrete state in which
the dependency `libzap>=2`, required by `mid`, has no provider. -/
theorem C3_dependency_not_found_witness :
    (envMissing.isDepSatisfied "libzap>=2" = false ∧
     envMissing.isDepInRepos "libzap>=2" = false ∧
     cacheHit (strip_version "libzap>=2") initState.aur_cache = false ∧
     (find_provider envMissing (strip_version "libzap>=2") initState).1 = "") ∧
    processDeps envMissing 1 "mid" ["libzap>=2"] initState =
      (false, {(find_provider envMissing (strip_version "libzap>=2") initState).2 with
        error := "Dependency not found anywhere: " ++ "libzap>=2" ++ " (required by " ++ "mid" ++ ")"}) :=
  ⟨⟨by decide, by decide, by decide, by decide⟩,
   C3_dependency_not_found.2 envMissing 0 "mid" "libzap>=2" [] initState
     (by decide) (by decide) (by decide) (by decide)⟩

/-! Claim C6: deduplication of the build list by build unit. -/
theorem dedupLoop_filter (l : List PackageInfo) (seen : List String) (b : String) :
    (dedupLoop l seen).1.filter (fun p => pkgBase p == b) =
      if seen.contains b then [] else (l.filter (fun p => pkgBase p == b)).take 1 := by
  induction l generalizing seen with
  | nil =>
    simp [dedupLoop]
  | cons p rest ih =>
    unfold dedupLoop
    by_cases hp : seen.contains (pkgBase p) = true
    · rw [if_pos hp]
      show List.filter (fun q => pkgBase q == b) (dedupLoop rest seen).1 = _
      rw [ih seen]
      by_cases hb : seen.contains b = true
      · simp [contains_iff.mp hb]
      · have hpb : (pkgBase p == b) = false :=
          beq_eq_false_iff_ne.mpr (fun he => hb (he ▸ hp))
        simp [hb, List.filter_cons, hpb]
    · rw [if_neg hp]
      show List.filter (fun q => pkgBase q == b)
        (p :: (dedupLoop rest (pkgBase p :: seen)).1) = _
      rw [List.filter_cons]
      by_cases hb : (pkgBase p == b) = true
      · have hbb : pkgBase p = b := eq_of_beq hb
        subst hbb
        rw [ih (pkgBase p :: seen)]
        have hps : pkgBase p ∉ seen := by
          intro hm
          exact hp (contains_iff.mpr hm)
        simp [hb, hps, List.contains_cons, List.filter_cons]
      · have hb' : (pkgBase p == b) = false := by
          cases h : (pkgBase p == b)
          · rfl
          · exact absurd h hb
        rw [ih (pkgBase p :: seen)]
        have hnee : pkgBase p ≠ b := ne_of_beq_false hb'
        have hb2 : (b == pkgBase p) = false :=
          beq_eq_false_iff_ne.mpr (fun he => hnee he.symm)
        have hcons : (pkgBase p :: seen).contains b = seen.contains b := by
          simp only [List.contains_cons, hb2, Bool.false_or]
        rw [hcons]
        simp [hb', List.filter_cons]

theorem dedupLoop_length (l : List PackageInfo) (seen : List String) :
    (dedupLoop l seen).1.length + (dedupLoop l seen).2.length = l.length := by
  induction l generalizing seen with
  | nil => rfl
  | cons p rest ih =>
    unfold dedupLoop
    by_cases hp : seen.contains (pkgBase p)
    · rw [if_pos hp]
      simp only [List.length_cons]
      rw [← ih seen]
      omega
    · rw [if_neg hp]
      simp only [List.length_cons]
      rw [← ih (pkgBase p :: seen)]
      omega

/-- C6: the build list returned by `resolve` is the dedup-by-build-unit of
the traversal order; for every build unit the deduplicated list keeps exactly
the first occurrence in traversal order (so it has at most one entry per
unit), the kept entries preserve the traversal order, every dropped package
produces exactly one log message, and on the two split packages sharing the
build unit `foo` only the first survives, with a log line for the second. -/
theorem C6_dedup_by_build_unit :
    (∀ env fuel s0 name, (resolve env fuel s0 name).1.aur_build_order =
        (dedupLoop (resolve env fuel s0 name).2.build_order []).1) ∧
    (∀ l b, ((dedupLoop l []).1.filter (fun p => pkgBase p == b)) =
        ((l.filter (fun p => pkgBase p == b)).take 1)) ∧
    (∀ l, List.Sublist (dedupLoop l []).1 l) ∧
    (∀ l, (dedupLoop l []).1.length + (dedupLoop l []).2.length = l.length) ∧
    (dedupLoop [pkgFooBin, pkgFooDoc] [] =
      ([pkgFooBin], ["Skipping foo-doc (split package, already building foo)"])) := by
  refine ⟨fun env fuel s0 name => rfl, ?_, fun l => dedupLoop_sublist l [],
          fun l => dedupLoop_length l [], by decide⟩
  intro l b
  rw [dedupLoop_filter l [] b]
  rfl

/-! Claim C10: a failed resolution still returns the lists accumulated
before the failure. -/
/-- C10: even when `ok` is false, the returned result carries the
dedup-by-build-unit of whatever build order the traversal accumulated, and
the repo and satisfied dependency sets exactly as accumulated — the result
of a failed resolve is not an empty record, so consumers must gate on the
`ok` flag. -/
theorem C10_failure_keeps_partial_lists (env : Env) (fuel : Nat) (s0 : ResolverState)
    (name : String) (hfail : (resolve env fuel s0 name).1.ok = false) :
    (resolve env fuel s0 name).1.aur_build_order =
      (dedupLoop (resolve env fuel s0 name).2.build_order []).1 ∧
    (resolve env fuel s0 name).1.repo_deps = (resolve env fuel s0 name).2.repo_deps ∧
    (resolve env fuel s0 name).1.satisfied_deps =
      (resolve env fuel s0 name).2.satisfied_deps :=
  ⟨rfl, rfl, rfl⟩

/-- C10, witness: a concrete failing resolution whose result still carries a
non-empty build list and repo dependency set. -/
theorem C10_failure_keeps_partial_lists_witness :
    (resolve envFail 30 initState "R").1.ok = false ∧
    ((resolve envFail 30 initState "R").1.aur_build_order =
        (dedupLoop (resolve envFail 30 initState "R").2.build_order []).1 ∧
     (resolve envFail 30 initState "R").1.repo_deps =
        (resolve envFail 30 initState "R").2.repo_deps ∧
     (resolve envFail 30 initState "R").1.satisfied_deps =
        (resolve envFail 30 initState "R").2.satisfied_deps) ∧
    ((resolve envFail 30 initState "R").1.aur_build_order.map PackageInfo.name = ["a"]) ∧
    (resolve envFail 30 initState "R").1.repo_deps = ["rd"] :=
  ⟨by decide, C10_failure_keeps_partial_lists envFail 30 initState "R" (by decide),
   by decide, by decide⟩

/-- C8: `resolve` is independent of the resolver object's prior state — the
result and the final state from any starting state coincide with those from
any other, in particular a resolver that already completed any sequence of
earlier resolve calls behaves exactly like a freshly constructed one.  This
holds definitionally because `resolve` clears every mutable field, including
the descriptor and provider caches, before traversing. -/
theorem C8_resolve_state_independent :
    (∀ env fuel s1 s2 name, resolve env fuel s1 name = resolve env fuel s2 name) ∧
    (∀ env fuel s0 prior name,
      resolve env fuel (resolveMany env fuel s0 prior) name =
        resolve env fuel initState name) :=
  ⟨fun _ _ _ _ _ => rfl, fun _ _ _ _ _ => rfl⟩

/-- C4, counterexample: on a two-package plan with a non-empty repo
dependency set, the pipeline fetches and reviews both PKGBUILDs first (trace
indices 0 to 3) and installs the repo dependencies only afterwards (index 4),
so the claimed order — repo dependencies before any per-package stage, review
inside the per-package loop — is false. -/
theorem C4_claim_counterexample :
    ((run_aur_builds benvAll [pkg1, pkg2] ["dep1"]).2 =
      [BuildEv.fetchPkgbuild "p1", BuildEv.review "p1",
       BuildEv.fetchPkgbuild "p2", BuildEv.review "p2",
       BuildEv.installRepoDeps ["dep1"] true,
       BuildEv.build 0 "p1", BuildEv.install 0 "p1", BuildEv.reload,
       BuildEv.build 1 "p2", BuildEv.install 1 "p2", BuildEv.reload]) ∧
    ¬ claimC4 (run_aur_builds benvAll [pkg1, pkg2] ["dep1"]).2 := by
  refine ⟨by decide, ?_⟩
  intro h
  exact absurd (h 4 (by decide) 0 (by decide) (by decide) (by decide)) (by decide)

theorem reviewPhase_all_ok (benv : BuildEnv) (pkgs : List PackageInfo)
    (h : ∀ p ∈ pkgs, benv.fetchPkgbuild p.name p.pkgbase ≠ "" ∧
      benv.reviewAccept p.name = true) :
    ∀ tr, reviewPhase benv pkgs tr = (true, tr ++ reviewTraceShape pkgs) := by
  induction pkgs with
  | nil =>
    intro tr
    simp [reviewPhase, reviewTraceShape]
  | cons p rest ih =>
    intro tr
    obtain ⟨hf, hr⟩ := h p (List.mem_cons_self p rest)
    have hf' : (benv.fetchPkgbuild p.name p.pkgbase == "") = false :=
      beq_eq_false_iff_ne.mpr hf
    unfold reviewPhase
    rw [hf']
    simp only [Bool.false_eq_true, if_false, hr, if_true]
    rw [ih (fun q hq => h q (List.mem_cons_of_mem p hq))]
    simp [reviewTraceShape, List.append_assoc]

theorem buildPhase_all_ok (benv : BuildEnv) (pkgs : List PackageInfo)
    (h : ∀ p ∈ pkgs, benv.buildPackage p.name ≠ "" ∧ benv.installOk p.name = true) :
    ∀ idx tr, buildPhase benv idx pkgs tr = (true, tr ++ buildTraceShape idx pkgs) := by
  induction pkgs with
  | nil =>
    intro idx tr
    simp [buildPhase, buildTraceShape]
  | cons p rest ih =>
    intro idx tr
    obtain ⟨hb, hi⟩ := h p (List.mem_cons_self p rest)
    have hb' : (benv.buildPackage p.name == "") = false := beq_eq_false_iff_ne.mpr hb
    unfold buildPhase
    rw [hb']
    simp only [Bool.false_eq_true, if_false, hi, if_true]
    rw [ih (fun q hq => h q (List.mem_cons_of_mem p hq))]
    simp [buildTraceShape, List.append_assoc]

/-- C4, amended: the pipeline first fetches and reviews the PKGBUILD of every
package of the plan, then — only when the repo-dependency set is non-empty —
installs all repo dependencies in one batch marked as dependencies, and only
then runs the per-package loop, building and installing package `i` before
package `i + 1`; the operator's confirmation precedes the whole pipeline. -/
theorem C4_order_amended :
    (∀ benv pkgs deps,
      (∀ p ∈ pkgs, benv.fetchPkgbuild p.name p.pkgbase ≠ "" ∧
        benv.reviewAccept p.name = true) →
      benv.installRepoDepsOk = true →
      (∀ p ∈ pkgs, benv.buildPackage p.name ≠ "" ∧ benv.installOk p.name = true) →
      run_aur_builds benv pkgs deps =
        (true, reviewTraceShape pkgs ++
          (if deps.isEmpty then [] else [BuildEv.installRepoDeps deps true]) ++
          buildTraceShape 0 pkgs)) ∧
    (∀ benv res, res.ok = true → res.aur_build_order.isEmpty = false →
      do_install_aur benv true res =
        ((run_aur_builds benv res.aur_build_order res.repo_deps).1,
         BuildEv.confirm :: (run_aur_builds benv res.aur_build_order res.repo_deps).2)) := by
  constructor
  · intro benv pkgs deps hrev hinst hbuild
    unfold run_aur_builds
    rw [reviewPhase_all_ok benv pkgs hrev []]
    simp only []
    by_cases hd : deps.isEmpty
    · rw [if_pos hd, buildPhase_all_ok benv pkgs hbuild 0]
      simp [hd]
    · rw [if_neg hd]
      simp only [hinst, if_true]
      rw [buildPhase_all_ok benv pkgs hbuild 0]
      simp [hd, List.append_assoc]
  · intro benv res hok hne
    unfold do_install_aur
    rw [hok]
    simp [hne]

/-- C4, witness: the amended order theorem applied to the concrete
all-success scenario with two packages and one repo dependency, and the
confirmation wrapper applied to its resolution result. -/
theorem C4_order_amended_witness :
    ((∀ p ∈ [pkg1, pkg2], benvAll.fetchPkgbuild p.name p.pkgbase ≠ "" ∧
        benvAll.reviewAccept p.name = true) ∧
     benvAll.installRepoDepsOk = true ∧
     (∀ p ∈ [pkg1, pkg2], benvAll.buildPackage p.name ≠ "" ∧
        benvAll.installOk p.name = true)) ∧
    (run_aur_builds benvAll [pkg1, pkg2] ["dep1"] =
      (true, reviewTraceShape [pkg1, pkg2] ++
        (if (["dep1"] : List String).isEmpty then []
         else [BuildEv.installRepoDeps ["dep1"] true]) ++
        buildTraceShape 0 [pkg1, pkg2])) ∧
    (do_install_aur benvAll true ⟨true, "", [pkg1], ["dep1"], []⟩ =
      ((run_aur_builds benvAll [pkg1] ["dep1"]).1,
       BuildEv.confirm :: (run_aur_builds benvAll [pkg1] ["dep1"]).2)) :=
  ⟨⟨by decide, by decide, by decide⟩,
   C4_order_amended.1 benvAll [pkg1, pkg2] ["dep1"] (by decide) (by decide) (by decide),
   C4_order_amended.2 benvAll ⟨true, "", [pkg1], ["dep1"], []⟩ (by decide) (by decide)⟩

/-! Claim C9: the VCS probe step of the upgrade scan. -/
/-- C9: the VCS scan loop is exactly a fold that keeps the accumulated
upgrades and, per candidate in order, skips it when the probe returns no
version (no error, the remaining candidates are still processed) and appends
it carrying the probed version when that version is strictly newer than the
locally installed one; also, the VCS name check accepts exactly the six
fixed suffixes. -/
theorem C9_vcs_probe :
    (∀ venv cands ups, vcsScan venv cands ups =
      ups ++ cands.filterMap (fun c =>
        if venv.checkVcsVersion c.1.name c.2.pkgbase == "" then none
        else if venv.vercmp (venv.checkVcsVersion c.1.name c.2.pkgbase) c.1.version > 0 then
          some (c.1, {c.2 with version := venv.checkVcsVersion c.1.name c.2.pkgbase})
        else none)) ∧
    is_vcs_package "pmt-git" = true ∧ is_vcs_package "pmt-svn" = true ∧
    is_vcs_package "pmt-hg" = true ∧ is_vcs_package "pmt-bzr" = true ∧
    is_vcs_package "pmt-fossil" = true ∧ is_vcs_package "pmt-cvs" = true ∧
    is_vcs_package "pmt" = false ∧ is_vcs_package "git-extras" = false := by
  refine ⟨?_, by decide, by decide, by decide, by decide, by decide, by decide,
          by decide, by decide⟩
  intro venv cands ups
  induction cands generalizing ups with
  | nil => simp [vcsScan]
  | cons c rest ih =>
    obtain ⟨loc, aur_pkg⟩ := c
    unfold vcsScan
    by_cases h1 : (venv.checkVcsVersion loc.name aur_pkg.pkgbase == "") = true
    · have e1 : venv.checkVcsVersion loc.name aur_pkg.pkgbase = "" := eq_of_beq h1
      rw [if_pos h1, ih]
      simp [List.filterMap_cons, e1]
    · have h1' : (venv.checkVcsVersion loc.name aur_pkg.pkgbase == "") = false := by
        cases h : (venv.checkVcsVersion loc.name aur_pkg.pkgbase == "")
        · rfl
        · exact absurd h h1
      have e1 : venv.checkVcsVersion loc.name aur_pkg.pkgbase ≠ "" := ne_of_beq_false h1'
      rw [if_neg (by rw [h1']; simp)]
      by_cases h2 : venv.vercmp (venv.checkVcsVersion loc.name aur_pkg.pkgbase) loc.version > 0
      · rw [if_pos h2, ih]
        simp [List.filterMap_cons, e1, h2, List.append_assoc]
      · rw [if_neg h2, ih]
        simp [List.filterMap_cons, e1, h2]

end Pmt
